import Mathlib

/-!
# Verification of hdd-rs core behaviour

Shallow embedding of the core of the hdd-rs repository:

* `src/smart/drivedb/presets.rs` — the vendor-attribute preset grammar
  (`parse_vendor_attribute`, `parse`).  The nom parser-combinator library is
  an external dependency of the repository; its combinators are embedded here
  in their complete (non-streaming) reading, which is the reading under which
  the repository's documented grammar examples (such as
  `3,raw48,Reallocated_Sector_Ct`) parse successfully.  Rust `unwrap()` on an
  `Err`/`None` value is modelled by the distinguished outcome `panicked`.
* `src/device/linux.rs` — device enumeration (`list_devices`,
  `Device::get_type`) over an abstract snapshot of the sysfs trees the code
  reads.  OS strings carry a `utf8` flag; `to_str` returns `none` exactly when
  the flag is false, and Rust `unwrap()` of that `none` is `panicked`.
* `cli/src/main.rs` — capability-gated query sequencing
  (`when_smart_enabled`), the per-attribute failure classification from
  `print_attributes`, and the backend selection `match` from `main`.
-/

set_option maxHeartbeats 1000000
set_option linter.unreachableTactic false
set_option linter.unusedTactic false

namespace HddRs

/-! ## Attribute preset grammar (src/smart/drivedb/presets.rs) -/

/-- `enum Type { HDD, SSD }` from presets.rs (renamed to avoid clashing with
the device type enum). -/
inductive DType where
  | HDD
  | SSD
deriving DecidableEq

/-- `struct Attribute` from presets.rs. -/
structure Attribute where
  name : Option String
  format : String
  byte_order : String
  drivetype : Option DType
deriving DecidableEq

/-- Outcome of a nom parser: `IResult::Done(rest, val)`, `IResult::Error`,
`IResult::Incomplete`, plus `panicked` for a Rust panic raised while parsing
(the `unwrap()` calls in the source). -/
inductive PR (α : Type) where
  | done (rest : List Char) (val : α)
  | perr
  | incomplete
  | panicked
deriving DecidableEq

def Parser (α : Type) : Type := List Char → PR α

/-- Sequencing of parsers, as in nom's `do_parse!` chains; errors,
incomplete results and panics propagate. -/
def pbind {α β : Type} (p : Parser α) (f : α → Parser β) : Parser β := fun input =>
  match p input with
  | .done rest a => f a rest
  | .perr => .perr
  | .incomplete => .incomplete
  | .panicked => .panicked

/-- nom's `digit`: one or more ASCII decimal digits. -/
def pdigit : Parser (List Char) := fun input =>
  match input with
  | [] => .perr
  | c :: _ =>
    if c.isDigit then .done (input.dropWhile Char.isDigit) (input.takeWhile Char.isDigit)
    else .perr

/-- Numeric value of a decimal digit run. -/
def natOfDigits (ds : List Char) : Nat :=
  ds.foldl (fun acc c => 10 * acc + (c.toNat - 48)) 0

/-- The closure `|x| str::from_utf8(x).unwrap().parse::<u8>().unwrap()` from
presets.rs line 25: digit runs are always valid UTF-8, but `parse::<u8>()`
returns `Err` for values above 255 and the second `unwrap()` then panics. -/
def pu8 (ds : List Char) : Parser Nat := fun input =>
  if natOfDigits ds ≤ 255 then .done input (natOfDigits ds) else .panicked

/-- nom's `char!(c)`. -/
def pchar (c : Char) : Parser Unit := fun input =>
  match input with
  | [] => .perr
  | x :: rest => if x = c then .done rest () else .perr

/-- nom's `take_till1_s!(pred)`: the longest nonempty run of characters for
which `pred` is false; fails if the first character already satisfies `pred`
or the input is empty. -/
def take_till1 (pred : Char → Bool) : Parser (List Char) := fun input =>
  match input with
  | [] => .perr
  | c :: _ =>
    if pred c then .perr
    else .done (input.dropWhile (fun x => !pred x)) (input.takeWhile (fun x => !pred x))

/-- nom's `tag!(t)`. -/
def ptag (t : List Char) : Parser (List Char) := fun input =>
  if input.take t.length = t then .done (input.drop t.length) t else .perr

/-- nom's `opt!(p)`: failure of `p` becomes `none` without consuming input. -/
def popt {α : Type} (p : Parser α) : Parser (Option α) := fun input =>
  match p input with
  | .done rest a => .done rest (some a)
  | .perr => .done input none
  | .incomplete => .incomplete
  | .panicked => .panicked

/-- nom's `alt!(p | q)` restricted to two branches. -/
def palt2 {α : Type} (p q : Parser α) : Parser α := fun input =>
  match p input with
  | .perr => q input
  | r => r

/-- nom's `eof!()`. -/
def peof : Parser Unit := fun input =>
  match input with
  | [] => .done [] ()
  | _ => .perr

def ppure {α : Type} (a : α) : Parser α := fun input => .done input a

/-- `fn not_comma` from presets.rs: true exactly at a comma (the name in the
source describes its use as a take-till predicate). -/
def not_comma (c : Char) : Bool := c == ','

/-- `fn not_comma_nor_colon` from presets.rs. -/
def not_comma_nor_colon (c : Char) : Bool := c == ',' || c == ':'

/-- The `[:BYTEORDER]` sub-parser from `parse_vendor_attribute`. -/
def byte_order_sub : Parser (List Char) :=
  pbind (pchar ':') (fun _ => take_till1 not_comma)

/-- The `[,(HDD|SSD)]` sub-parser from `parse_vendor_attribute`. -/
def drive_type_sub : Parser DType :=
  pbind (pchar ',') (fun _ =>
    pbind (palt2 (ptag "HDD".data) (ptag "SSD".data)) (fun t =>
      ppure (if t = "HDD".data then DType.HDD else DType.SSD)))

/-- The `[,NAME[,(HDD|SSD)]]` sub-parser from `parse_vendor_attribute`. -/
def name_drive_type_sub : Parser (List Char × Option DType) :=
  pbind (pchar ',') (fun _ =>
    pbind (take_till1 not_comma) (fun nm =>
      pbind (popt drive_type_sub) (fun dt => ppure (nm, dt))))

/-- The parsed fields of one specification, before the final assembly
expression of the `do_parse!` block. -/
structure VAComponents where
  id : Nat
  format : List Char
  byte_order : Option (List Char)
  name_drive_type : Option (List Char × Option DType)
deriving DecidableEq

/-- The field-parsing part of `parse_vendor_attribute`
(`ID,FORMAT[:BYTEORDER][,NAME[,(HDD|SSD)]]` followed by `eof!()`). -/
def parse_components : Parser VAComponents :=
  pbind pdigit (fun ds =>
  pbind (pu8 ds) (fun idv =>
  pbind (pchar ',') (fun _ =>
  pbind (take_till1 not_comma_nor_colon) (fun fmt =>
  pbind (popt byte_order_sub) (fun bo =>
  pbind (popt name_drive_type_sub) (fun ndt =>
  pbind peof (fun _ => ppure ⟨idv, fmt, bo, ndt⟩)))))))

/-- The `default_byte_order` match from the assembly expression of
`parse_vendor_attribute` (presets.rs lines 62–67). -/
def default_byte_order (format : String) : String :=
  if format = "raw64" ∨ format = "hex64" then "543210wv"
  else if format = "raw56" ∨ format = "hex56" ∨ format = "raw24/raw32" ∨
          format = "msec24hour32" then "r543210"
  else "543210"

/-- The final assembly expression of the `do_parse!` block
(presets.rs lines 57–74). -/
def assemble (c : VAComponents) : Nat × Attribute :=
  let nd : Option (List Char) × Option DType :=
    match c.name_drive_type with
    | some (n, dt) => (some n, dt)
    | none => (none, none)
  (c.id,
   { name := nd.1.map String.mk,
     format := String.mk c.format,
     byte_order :=
       match c.byte_order with
       | some bo => String.mk bo
       | none => default_byte_order (String.mk c.format),
     drivetype := nd.2 })

/-- `parse_vendor_attribute` from presets.rs. -/
def parse_vendor_attribute : Parser (Nat × Attribute) := fun input =>
  match parse_components input with
  | .done rest c => .done rest (assemble c)
  | .perr => .perr
  | .incomplete => .incomplete
  | .panicked => .panicked

/-- `type Preset = HashMap<u8, Attribute>` modelled as an association list;
only the key-to-value mapping is meaningful. -/
def Preset : Type := List (Nat × Attribute)

instance : DecidableEq Preset := by
  unfold Preset
  infer_instance

/-- `HashMap::insert`: re-inserting a key replaces the prior entry. -/
def presetInsert (m : Preset) (k : Nat) (v : Attribute) : Preset :=
  m.filter (fun p => p.1 != k) ++ [(k, v)]

/-- Result of the option-stream `parse`: `Option<Preset>` plus a Rust panic. -/
inductive StreamRes where
  | panicked
  | noTable
  | table (t : Preset)
deriving DecidableEq

/-- The `loop` body of `fn parse` from presets.rs: tokens are consumed in
(option, value) pairs; a dangling option returns `None`; a `-v` value is fed
through `parse_vendor_attribute`, inserting on `Done` and skipping on
`Error`/`Incomplete`; other options are skipped with their value. -/
def parseLoop : List String → Preset → StreamRes
  | [], out => .table out
  | _ :: [], _ => .noTable
  | key :: value :: rest, out =>
    if key = "-v" then
      match parse_vendor_attribute value.data with
      | .done _ ia => parseLoop rest (presetInsert out ia.1 ia.2)
      | .perr => parseLoop rest out
      | .incomplete => parseLoop rest out
      | .panicked => .panicked
    else parseLoop rest out

/-- `split_whitespace`: maximal runs of non-whitespace characters. -/
def splitWSAux : List Char → List Char → List (List Char)
  | [], acc => [acc.reverse]
  | c :: cs, acc =>
    if c.isWhitespace then acc.reverse :: splitWSAux cs []
    else splitWSAux cs (c :: acc)

def tokenize (line : String) : List String :=
  ((splitWSAux line.data []).filter (fun t => t != [])).map String.mk

/-- `fn parse` from presets.rs. -/
def parse (line : String) : StreamRes := parseLoop (tokenize line) []

/-! ## Device enumeration (src/device/linux.rs) -/

/-- An OS string: its (lossy) textual content plus whether it is valid UTF-8.
`to_str` succeeds exactly on valid UTF-8. -/
structure OsStr where
  val : String
  utf8 : Bool
deriving DecidableEq

def OsStr.toStr (s : OsStr) : Option String := if s.utf8 then some s.val else none

/-- Byte-level string begins-with check (first argument is the pattern). -/
def beginsWith : List Char → List Char → Bool
  | [], _ => true
  | _ :: _, [] => false
  | p :: ps, c :: cs => p == c && beginsWith ps cs

def strBegins (pat s : String) : Bool := beginsWith pat.data s.data

def splitSlashAux : List Char → List Char → List (List Char)
  | [], acc => [acc.reverse]
  | c :: cs, acc =>
    if c == '/' then acc.reverse :: splitSlashAux cs []
    else splitSlashAux cs (c :: acc)

/-- `Path::file_name` of a link target: the last nonempty path component
(`None` for an empty path or a path ending in `..`). -/
def osFileName (s : OsStr) : Option OsStr :=
  match ((splitSlashAux s.val.data []).filter (fun c => c != [])).getLast? with
  | some comp => if comp = "..".data then none else some ⟨String.mk comp, s.utf8⟩
  | none => none

/-- One directory entry of `/sys/class/block` together with the per-entry
filesystem surfaces `list_devices` reads for it:
the canonical path (`none` when `canonicalize` fails), the target of the
`device/driver` symlink (`none` when unreadable), the lines of the `uevent`
file (`none` when it cannot be opened; a `none` line is a read error), and
the target of the `device/generic` symlink (`none` when unreadable). -/
structure BlockEntry where
  name : OsStr
  canonical : Option OsStr
  driver_link : Option OsStr
  uevent : Option (List (Option String))
  generic_link : Option OsStr
deriving DecidableEq

/-- Snapshot of the two class trees read by `list_devices`; `none` means the
root directory cannot be listed, and a `none` list element is an unreadable
directory entry (`Err` from `read_dir`'s iterator). -/
structure Sysfs where
  class_block : Option (List (Option BlockEntry))
  class_scsi_generic : Option (List (Option OsStr))
deriving DecidableEq

/-- The uevent scanning loop (linux.rs lines 120–139): accept on a line
exactly `DEVTYPE=disk`, reject on any other `DEVTYPE=` line, on a read error,
or at end of input. -/
def scanUevent : List (Option String) → Bool
  | [] => false
  | some s :: rest =>
    if s = "DEVTYPE=disk" then true
    else if strBegins "DEVTYPE=" s then false
    else scanUevent rest
  | none :: _ => false

/-- Rust control flow outcome: a value, or a panic. -/
inductive R (α : Type) where
  | panicked
  | ok (a : α)
deriving DecidableEq

/-- The body of the `/sys/class/block` loop for one entry
(linux.rs lines 70–161): `ok none` is `continue` (entry skipped), `ok (some
(name, alias))` is an accepted disk together with its optional generic alias
name, and `panicked` is an `unwrap()` panic on a non-UTF-8 name or path. -/
def processEntry (e : BlockEntry) : R (Option (OsStr × Option OsStr)) :=
  match e.canonical with
  | none => .ok none
  | some path =>
    if strBegins "/sys/devices/virtual/" path.val then .ok none
    else
      match path.toStr with
      | none => .panicked
      | some pstr =>
        if strBegins "/sys/devices/platform/floppy" pstr then .ok none
        else
          match e.name.toStr with
          | none => .panicked
          | some nstr =>
            if strBegins "v" nstr &&
               decide ((e.driver_link.bind osFileName) = some ⟨"virtio_blk", true⟩) then
              .ok none
            else
              match e.uevent with
              | none => .ok none
              | some lines =>
                if scanUevent lines then .ok (some (e.name, e.generic_link.bind osFileName))
                else .ok none

/-- The `/sys/class/block` loop: accepted names in traversal order, and the
`skip_generics` reject-set. -/
def scanBlock : List (Option BlockEntry) → R (List OsStr × List OsStr)
  | [] => .ok ([], [])
  | none :: rest => scanBlock rest
  | some e :: rest =>
    match processEntry e with
    | .panicked => .panicked
    | .ok none => scanBlock rest
    | .ok (some (n, al)) =>
      match scanBlock rest with
      | .panicked => .panicked
      | .ok (ns, sk) =>
        .ok (n :: ns, match al with | some gal => gal :: sk | none => sk)

/-- The `/sys/class/scsi_generic` loop (linux.rs lines 170–181): keep each
readable entry whose name is not in the reject-set. -/
def scanGeneric (sk : List OsStr) : List (Option OsStr) → List OsStr
  | [] => []
  | none :: rest => scanGeneric sk rest
  | some n :: rest =>
    if n ∈ sk then scanGeneric sk rest else n :: scanGeneric sk rest

/-- The final `format!("/dev/{name}")` mapping (linux.rs lines 183–186);
`into_string().unwrap()` panics on a non-UTF-8 name. -/
def intoDevPaths : List OsStr → R (List String)
  | [] => .ok []
  | n :: rest =>
    match n.toStr with
    | none => .panicked
    | some s =>
      match intoDevPaths rest with
      | .panicked => .panicked
      | .ok l => .ok (("/dev/" ++ s) :: l)

/-- Outcome of `list_devices`: the device-path list, the `io::Error` from a
class-tree root that cannot be listed, or a panic. -/
inductive LDRes where
  | panicked
  | ioError
  | ok (devs : List String)
deriving DecidableEq

/-- `fn list_devices` from linux.rs. -/
def list_devices (fs : Sysfs) : LDRes :=
  match fs.class_block with
  | none => .ioError
  | some bes =>
    match scanBlock bes with
    | .panicked => .panicked
    | .ok (ns, sk) =>
      match fs.class_scsi_generic with
      | none => .ioError
      | some ges =>
        match intoDevPaths (ns ++ scanGeneric sk ges) with
        | .panicked => .panicked
        | .ok devs => .ok devs

def optUtf8 : Option OsStr → Bool
  | some p => p.utf8
  | none => true

/-- All strings of a block entry that `list_devices` may pass to
`to_str().unwrap()` or `into_string().unwrap()` are valid UTF-8. -/
def entryUtf8 (e : BlockEntry) : Bool :=
  e.name.utf8 && optUtf8 e.canonical && optUtf8 e.generic_link

def optEntryUtf8 : Option BlockEntry → Bool
  | some e => entryUtf8 e
  | none => true

def optAll {α : Type} (p : α → Bool) : Option (List α) → Bool
  | some l => l.all p
  | none => true

/-- All names and paths in the snapshot are valid UTF-8. -/
def sysfsUtf8 (fs : Sysfs) : Bool :=
  optAll optEntryUtf8 fs.class_block && optAll optUtf8 fs.class_scsi_generic

def countOccStr (s : String) : List String → Nat
  | [] => 0
  | x :: xs => (if x = s then 1 else 0) + countOccStr s xs

def countOccOs (s : OsStr) : List OsStr → Nat
  | [] => 0
  | x :: xs => (if x = s then 1 else 0) + countOccOs s xs

/-- A disk block entry `sda` whose `device/generic` symlink resolves to
`sg0`. -/
def sdaEntry : BlockEntry :=
  { name := ⟨"sda", true⟩,
    canonical := some ⟨"/sys/devices/pci0000/host0/block/sda", true⟩,
    driver_link := none,
    uevent := some [some "MAJOR=8", some "DEVTYPE=disk"],
    generic_link := some ⟨"scsi_generic/sg0", true⟩ }

/-- A snapshot where the same physical device is reachable both as the block
node `sda` and as the generic node `sg0`, next to an unrelated generic-only
node `sg7`. -/
def demoFs : Sysfs :=
  { class_block := some [some sdaEntry],
    class_scsi_generic := some [some ⟨"sg0", true⟩, some ⟨"sg7", true⟩] }

/-- A block entry whose canonical path is not valid UTF-8. -/
def badEntry : BlockEntry :=
  { name := ⟨"sda", true⟩,
    canonical := some ⟨"/sys/devices/pci0000/host0/block/sda", false⟩,
    driver_link := none,
    uevent := some [some "DEVTYPE=disk"],
    generic_link := none }

/-- A snapshot whose class-tree roots are both listable but which contains a
non-UTF-8 canonical path. -/
def badFs : Sysfs :=
  { class_block := some [some badEntry],
    class_scsi_generic := some [] }

/-! ## Device handle (src/device/linux.rs, `impl Device`) -/

structure File where
  fd : Nat
deriving DecidableEq

/-- `struct Device` from linux.rs. -/
structure Device where
  file : File
deriving DecidableEq

/-- `enum Type` from linux.rs (the device transport type). -/
inductive DevType where
  | SCSI
deriving DecidableEq

inductive IOErrorKind where
  | other
deriving DecidableEq

/-- `Device::get_type` from linux.rs lines 36–38. -/
def Device.get_type (_d : Device) : Except IOErrorKind DevType := .ok .SCSI

/-! ## CLI query sequencing and classification (cli/src/main.rs) -/

/-- `id::Ternary`: the three-valued capability state. -/
inductive Ternary where
  | Unsupported
  | Disabled
  | Enabled
deriving DecidableEq

inductive AtaCommand where
  | Identify
  | SMART
deriving DecidableEq

inductive SMARTFeature where
  | ReturnStatus
  | ReadValues
  | ReadThresholds
deriving DecidableEq

/-- An argument passed to an executor function: a numeric literal or a
`SMARTFeature … as u8` value (the numeric encodings live outside src/). -/
inductive ArgVal where
  | lit (n : Nat)
  | feat (f : SMARTFeature)
deriving DecidableEq

/-- Observable effects of the query flow in `main`: a data-block executor
call (`exec`), a status-block executor call (`task`), or a stderr notice
(`warn`). -/
inductive Effect where
  | execCmd (cmd : AtaCommand) (featureOrZero countOrFeature sector : ArgVal)
  | taskCmd (cmd : AtaCommand) (feature sector_count sector lcyl hcyl device : ArgVal)
  | warnMsg (s : String)
deriving DecidableEq

def isCommand : Effect → Bool
  | .execCmd _ _ _ _ => true
  | .taskCmd _ _ _ _ _ _ _ => true
  | .warnMsg _ => false

/-- The commands a list of effects issues to the Command Executor. -/
def commandsOf (l : List Effect) : List Effect := l.filter isCommand

/-- `fn when_smart_enabled` from main.rs lines 160–166. -/
def when_smart_enabled (status : Ternary) (action_name : String)
    (action : List Effect) : List Effect :=
  match status with
  | .Unsupported => [.warnMsg ("S.M.A.R.T. is not supported, cannot show " ++ action_name ++ "\n")]
  | .Disabled => [.warnMsg ("S.M.A.R.T. is disabled, cannot show " ++ action_name ++ "\n")]
  | .Enabled => action

/-- The health section of `main` (lines 316–334). -/
def healthSection (smart : Ternary) : List Effect :=
  when_smart_enabled smart "health status"
    [.taskCmd .SMART (.feat .ReturnStatus) (.lit 0) (.lit 0) (.lit 0x4f) (.lit 0xc2) (.lit 0)]

/-- The attributes section of `main` (lines 336–349). -/
def attrsSection (smart : Ternary) : List Effect :=
  when_smart_enabled smart "attributes"
    [.execCmd .SMART (.lit 0) (.feat .ReadValues) (.lit 1),
     .execCmd .SMART (.lit 0) (.feat .ReadThresholds) (.lit 1)]

/-- The effect trace of `main`'s query flow (lines 287–349): the
identification command, then the capability-gated health and attributes
sections. -/
def querySequence (print_info print_health print_attrs : Bool)
    (smart : Ternary) : List Effect :=
  if print_info || print_attrs || print_health then
    [.execCmd .Identify (.lit 1) (.lit 0) (.lit 1)]
      ++ (if print_health then healthSection smart else [])
      ++ (if print_attrs then attrsSection smart else [])
  else []

/-- The per-attribute failure classification: the guarded `match
(val.value, val.worst, val.thresh)` from `print_attributes`
(main.rs lines 133–140). -/
def fail_field (value worst thresh : Option Nat) : String :=
  match value, worst, thresh with
  | some v, w, some t =>
    if v ≤ t then "NOW "
    else
      match w with
      | some wv => if wv ≤ t then "past" else "-   "
      | none => "-   "
  | _, some wv, some t => if wv ≤ t then "past" else "-   "
  | _, _, _ => "-   "

/-- Both operands known and the first at most the second. -/
def bothKnownLE (a b : Option Nat) : Bool :=
  match a, b with
  | some x, some y => decide (x ≤ y)
  | _, _ => false

/-- The classification as the specification states it: "failing now" if
current value and threshold are both known and value ≤ threshold; otherwise
"failed in the past" if worst and threshold are both known and
worst ≤ threshold; otherwise "ok/unknown". -/
def fail_field_spec (value worst thresh : Option Nat) : String :=
  if bothKnownLE value thresh then "NOW "
  else if bothKnownLE worst thresh then "past"
  else "-   "

/-! ## Backend selection (cli/src/main.rs, `main`, lines 219–252)

clap stores the `-d`/`--device` *type* flag under the argument name
`"type"` (main.rs line 219) and the positional device *path* under the
argument name `"device"` (line 226); `value_of` looks arguments up by
name. -/

structure ArgMatches where
  typeArg : Option String
  deviceArg : Option String
deriving DecidableEq

def value_of (m : ArgMatches) (key : String) : Option String :=
  if key = "type" then m.typeArg
  else if key = "device" then m.deviceArg
  else none

inductive OS where
  | linux
  | freebsd
deriving DecidableEq

inductive Backend where
  | linux_ata
  | linux_scsi_sat
deriving DecidableEq

inductive SelectRes where
  | chosen (b : Backend)
  | unreachablePanic
deriving DecidableEq

/-- The backend-selection `match` from `main` (lines 233–252): it consults
`args.value_of("device")` — the positional device path — with guards on the
host OS; the FreeBSD arm is commented out, leaving `unreachable!()`. -/
def selectBackend (os : OS) (m : ArgMatches) : SelectRes :=
  match value_of m "device", os with
  | some s, OS.linux =>
    if s = "ata" then .chosen .linux_ata else .chosen .linux_scsi_sat
  | _, OS.linux => .chosen .linux_scsi_sat
  | _, _ => .unreachablePanic

/-! ## Theorems -/

/-- Inversion of `pbind` at a successful outcome. -/
theorem pbind_done {α β : Type} {p : Parser α} {f : α → Parser β}
    {input rest : List Char} {b : β} (h : pbind p f input = PR.done rest b) :
    ∃ mid a, p input = PR.done mid a ∧ f a mid = PR.done rest b := by
  unfold pbind at h
  cases hp : p input <;> rw [hp] at h
  case done mid a => exact ⟨mid, a, rfl, h⟩
  all_goals cases h

theorem ppure_done {α : Type} {a : α} {input rest : List Char} {b : α}
    (h : ppure a input = PR.done rest b) : rest = input ∧ b = a := by
  unfold ppure at h
  injection h with h1 h2
  exact ⟨h1.symm, h2.symm⟩

theorem pchar_done {c : Char} {input rest : List Char} {u : Unit}
    (h : pchar c input = PR.done rest u) : input = c :: rest := by
  unfold pchar at h
  split at h
  · cases h
  · rename_i x t
    split at h
    · rename_i hx
      injection h with h1 _
      rw [hx, h1]
    · cases h

theorem pu8_done {ds input rest : List Char} {n : Nat}
    (h : pu8 ds input = PR.done rest n) :
    rest = input ∧ n = natOfDigits ds ∧ natOfDigits ds ≤ 255 := by
  unfold pu8 at h
  by_cases hle : natOfDigits ds ≤ 255
  · rw [if_pos hle] at h
    injection h with h1 h2
    exact ⟨h1.symm, h2.symm, hle⟩
  · rw [if_neg hle] at h
    cases h

theorem pdigit_done {input rest ds : List Char}
    (h : pdigit input = PR.done rest ds) :
    input = ds ++ rest ∧ ds ≠ [] ∧ ∀ c ∈ ds, c.isDigit := by
  unfold pdigit at h
  split at h
  · cases h
  · rename_i c t
    split at h
    · rename_i hc
      injection h with h1 h2
      refine ⟨?_, ?_, ?_⟩
      · rw [← h1, ← h2]
        exact (List.takeWhile_append_dropWhile Char.isDigit (c :: t)).symm
      · rw [← h2]
        simp [List.takeWhile_cons, hc]
      · intro x hx
        rw [← h2] at hx
        exact List.mem_takeWhile_imp hx
    · cases h

theorem take_till1_done {pred : Char → Bool} {input rest l : List Char}
    (h : take_till1 pred input = PR.done rest l) :
    input = l ++ rest ∧ l ≠ [] ∧ ∀ c ∈ l, pred c = false := by
  unfold take_till1 at h
  split at h
  · cases h
  · rename_i c t
    split at h
    · cases h
    · rename_i hc
      injection h with h1 h2
      refine ⟨?_, ?_, ?_⟩
      · rw [← h1, ← h2]
        exact (List.takeWhile_append_dropWhile (fun x => !pred x) (c :: t)).symm
      · rw [← h2]
        simp [List.takeWhile_cons, hc]
      · intro x hx
        rw [← h2] at hx
        have := List.mem_takeWhile_imp hx
        simpa using this

theorem peof_done {input rest : List Char} {u : Unit}
    (h : peof input = PR.done rest u) : input = [] ∧ rest = [] := by
  unfold peof at h
  split at h
  · injection h with h1 _
    exact ⟨rfl, h1.symm⟩
  · cases h

theorem popt_done {α : Type} {p : Parser α} {input rest : List Char}
    {v : Option α} (h : popt p input = PR.done rest v) :
    (∃ a, v = some a ∧ p input = PR.done rest a) ∨ (v = none ∧ rest = input) := by
  unfold popt at h
  cases hp : p input <;> rw [hp] at h
  case done r a =>
    injection h with h1 h2
    exact Or.inl ⟨a, h2.symm, by rw [h1]⟩
  case perr =>
    injection h with h1 h2
    exact Or.inr ⟨h2.symm, h1.symm⟩
  all_goals cases h

theorem byte_order_sub_done {input rest bo : List Char}
    (h : byte_order_sub input = PR.done rest bo) :
    input = ':' :: (bo ++ rest) ∧ bo ≠ [] := by
  unfold byte_order_sub at h
  obtain ⟨mid, u, h1, h2⟩ := pbind_done h
  obtain ⟨hm, hne, _⟩ := take_till1_done h2
  exact ⟨by rw [pchar_done h1, hm], hne⟩

theorem name_drive_type_sub_done {input rest : List Char}
    {v : List Char × Option DType}
    (h : name_drive_type_sub input = PR.done rest v) :
    ∃ t, input = ',' :: t := by
  unfold name_drive_type_sub at h
  obtain ⟨mid, u, h1, _⟩ := pbind_done h
  exact ⟨mid, pchar_done h1⟩

/-- Structural inversion of the field parser of `parse_vendor_attribute`: a
successful parse consumes the entire input, its input decomposes as
digits, a comma, the format, then either an explicit `:BYTEORDER` section or
a remainder that is empty or starts the `,NAME` section. -/
theorem parse_components_done {input rest : List Char} {c : VAComponents}
    (h : parse_components input = PR.done rest c) :
    rest = [] ∧
    ∃ ds : List Char, ds ≠ [] ∧ (∀ ch ∈ ds, ch.isDigit) ∧ c.format ≠ [] ∧
      ((∃ bo tail2, c.byte_order = some bo ∧ bo ≠ [] ∧
          input = ds ++ ',' :: c.format ++ ':' :: bo ++ tail2) ∨
       (c.byte_order = none ∧ ∃ tail1,
          input = ds ++ ',' :: c.format ++ tail1 ∧
          (tail1 = [] ∨ ∃ t, tail1 = ',' :: t))) := by
  unfold parse_components at h
  obtain ⟨r1, ds, h1, h⟩ := pbind_done h
  obtain ⟨r2, idv, h2, h⟩ := pbind_done h
  obtain ⟨r3, u3, h3, h⟩ := pbind_done h
  obtain ⟨r4, fmt, h4, h⟩ := pbind_done h
  obtain ⟨r5, bo, h5, h⟩ := pbind_done h
  obtain ⟨r6, ndt, h6, h⟩ := pbind_done h
  obtain ⟨r7, u7, h7, h⟩ := pbind_done h
  obtain ⟨hrest, hc⟩ := ppure_done h
  obtain ⟨hi1, hds, hdig⟩ := pdigit_done h1
  obtain ⟨hr2, _, _⟩ := pu8_done h2
  have hi2 : r2 = ',' :: r3 := pchar_done h3
  obtain ⟨hi3, hfmt, _⟩ := take_till1_done h4
  obtain ⟨hr6, hr7⟩ := peof_done h7
  subst hc
  refine ⟨by rw [hrest, hr7], ds, hds, hdig, hfmt, ?_⟩
  rcases popt_done h5 with ⟨boV, hbo, hsub⟩ | ⟨hbo, hr5⟩
  · obtain ⟨hi4, hbne⟩ := byte_order_sub_done hsub
    refine Or.inl ⟨boV, r5, hbo, hbne, ?_⟩
    rw [hi1, ← hr2, hi2, hi3, hi4]
    simp
  · refine Or.inr ⟨hbo, r4, ?_, ?_⟩
    · rw [hi1, ← hr2, hi2, hi3]
      simp
    · rcases popt_done h6 with ⟨ndtV, hndt, hsub⟩ | ⟨hndt, hr6'⟩
      · obtain ⟨t, ht⟩ := name_drive_type_sub_done hsub
        rw [← hr5]
        exact Or.inr ⟨t, ht⟩
      · rw [← hr5, ← hr6', hr6]
        exact Or.inl rfl

/-- C7: `parse_vendor_attribute` consumes the entire specification exactly —
every successful parse leaves no unconsumed input — and in particular
`5,raw16,Name,SSD,extra` (trailing content after DRIVECLASS) is a parse
failure. -/
theorem parse_vendor_attribute_consumes_all :
    (∀ input rest v, parse_vendor_attribute input = PR.done rest v → rest = []) ∧
    parse_vendor_attribute ("5,raw16,Name,SSD,extra".data) = PR.perr := by
  constructor
  · intro input rest v h
    unfold parse_vendor_attribute at h
    cases hc : parse_components input <;> rw [hc] at h
    case done r c =>
      injection h with h1 _
      rw [← h1]
      exact (parse_components_done hc).1
    all_goals cases h
  · decide

/-- C7 witness: a concrete successful parse, to which the theorem applies. -/
theorem parse_vendor_attribute_consumes_all_witness :
    parse_vendor_attribute ("3,raw48".data) =
      PR.done [] (3, Attribute.mk none "raw48" "543210" none) ∧
    ([] : List Char) = [] :=
  ⟨by decide,
   parse_vendor_attribute_consumes_all.1 ("3,raw48".data) []
     (3, Attribute.mk none "raw48" "543210" none) (by decide)⟩

/-- C9: for every successfully parsed specification the preset's
`byte_order` is the explicit BYTEORDER when one is given after `:` right
after the format, and otherwise the format-keyed default; the defaults are
`543210wv` for `raw64`/`hex64`, `r543210` for
`raw56`/`hex56`/`raw24/raw32`/`msec24hour32`, and `543210` for any other
format. -/
theorem parse_vendor_attribute_byte_order :
    (∀ input rest idv a, parse_vendor_attribute input = PR.done rest (idv, a) →
      (∃ ds bo tail, input = ds ++ ',' :: a.format.data ++ ':' :: bo ++ tail ∧
         bo ≠ [] ∧ a.byte_order = String.mk bo) ∨
      (∃ ds tail, input = ds ++ ',' :: a.format.data ++ tail ∧
         (tail = [] ∨ ∃ t, tail = ',' :: t) ∧
         a.byte_order = default_byte_order a.format)) ∧
    default_byte_order "raw64" = "543210wv" ∧
    default_byte_order "hex64" = "543210wv" ∧
    default_byte_order "raw56" = "r543210" ∧
    default_byte_order "hex56" = "r543210" ∧
    default_byte_order "raw24/raw32" = "r543210" ∧
    default_byte_order "msec24hour32" = "r543210" ∧
    (∀ f : String,
      f ∉ (["raw64", "hex64", "raw56", "hex56", "raw24/raw32",
            "msec24hour32"] : List String) →
      default_byte_order f = "543210") := by
  refine ⟨?_, by decide, by decide, by decide, by decide, by decide, by decide, ?_⟩
  · intro input rest idv a h
    unfold parse_vendor_attribute at h
    cases hc : parse_components input <;> rw [hc] at h
    case done r c =>
      injection h with h1 h2
      obtain ⟨_, ds, _, _, _, hcase⟩ := parse_components_done hc
      have ha : a = (assemble c).2 := (congrArg Prod.snd h2).symm
      have hfmt : a.format = String.mk c.format := by rw [ha]; rfl
      have hfd : a.format.data = c.format := by rw [hfmt]
      rcases hcase with ⟨bo, tail2, hbo, hbne, hinp⟩ | ⟨hbo, tail1, hinp, htail⟩
      · refine Or.inl ⟨ds, bo, tail2, by rw [hfd]; exact hinp, hbne, ?_⟩
        rw [ha]
        unfold assemble
        simp [hbo]
      · refine Or.inr ⟨ds, tail1, by rw [hfd]; exact hinp, htail, ?_⟩
        rw [ha]
        unfold assemble
        simp [hbo]
    all_goals cases h
  · intro f hf
    simp only [List.mem_cons, List.not_mem_nil, or_false, not_or] at hf
    obtain ⟨n1, n2, n3, n4, n5, n6⟩ := hf
    unfold default_byte_order
    rw [if_neg (by tauto), if_neg (by tauto)]

/-- C9 witness: the explicit byte order of `194,tempminmax:wv,Temperature`. -/
theorem parse_vendor_attribute_byte_order_witness :
    (∃ ds bo tail, "194,tempminmax:wv,Temperature".data =
        ds ++ ',' :: (Attribute.mk (some "Temperature") "tempminmax" "wv" none).format.data
          ++ ':' :: bo ++ tail ∧
        bo ≠ [] ∧
        (Attribute.mk (some "Temperature") "tempminmax" "wv" none).byte_order = String.mk bo) ∨
    (∃ ds tail, "194,tempminmax:wv,Temperature".data =
        ds ++ ',' :: (Attribute.mk (some "Temperature") "tempminmax" "wv" none).format.data
          ++ tail ∧
        (tail = [] ∨ ∃ t, tail = ',' :: t) ∧
        (Attribute.mk (some "Temperature") "tempminmax" "wv" none).byte_order =
          default_byte_order (Attribute.mk (some "Temperature") "tempminmax" "wv" none).format) :=
  parse_vendor_attribute_byte_order.1 ("194,tempminmax:wv,Temperature".data) [] 194
    (Attribute.mk (some "Temperature") "tempminmax" "wv" none) (by decide)

/-- An odd-length token stream never yields a table: some option token has
no following value token, and the loop returns before any table can be
produced. -/
theorem parseLoop_odd_never_table :
    ∀ (toks : List String) (out : Preset), toks.length % 2 = 1 →
      ∀ t, parseLoop toks out ≠ StreamRes.table t
  | [], _, h => by simp at h
  | [_], _, _ => by
    intro t hcontra
    simp [parseLoop] at hcontra
  | k :: v :: rest, out, h => by
    intro t hcontra
    have hlen : rest.length % 2 = 1 := by
      simp only [List.length_cons] at h
      omega
    simp only [parseLoop] at hcontra
    split at hcontra
    · split at hcontra
      · exact parseLoop_odd_never_table rest _ hlen t hcontra
      · exact parseLoop_odd_never_table rest _ hlen t hcontra
      · exact parseLoop_odd_never_table rest _ hlen t hcontra
      · cases hcontra
    · exact parseLoop_odd_never_table rest _ hlen t hcontra

/-- An odd-length token stream in which no `-v` value panics returns
exactly the `None` outcome — the partially built table is discarded. -/
theorem parseLoop_odd_noTable :
    ∀ (toks : List String) (out : Preset), toks.length % 2 = 1 →
      (∀ tok ∈ toks, parse_vendor_attribute tok.data ≠ PR.panicked) →
      parseLoop toks out = StreamRes.noTable
  | [], _, h, _ => by simp at h
  | [_], _, _, _ => by simp [parseLoop]
  | k :: v :: rest, out, h, hnp => by
    have hlen : rest.length % 2 = 1 := by
      simp only [List.length_cons] at h
      omega
    have hnp' : ∀ tok ∈ rest, parse_vendor_attribute tok.data ≠ PR.panicked :=
      fun tok ht => hnp tok (by simp [ht])
    simp only [parseLoop]
    split
    · split
      · exact parseLoop_odd_noTable rest _ hlen hnp'
      · exact parseLoop_odd_noTable rest _ hlen hnp'
      · exact parseLoop_odd_noTable rest _ hlen hnp'
      · rename_i heq
        exact absurd heq (hnp v (by simp))
    · exact parseLoop_odd_noTable rest _ hlen hnp'

/-- Skipping a malformed `-v` specification: if the value fails the
single-specification grammar, the surrounding stream parses exactly as if
the `-v value` pair were absent. -/
theorem parseLoop_skip_malformed :
    ∀ (pre : List String) (value : String) (post : List String) (out : Preset),
      pre.length % 2 = 0 →
      (parse_vendor_attribute value.data = PR.perr ∨
       parse_vendor_attribute value.data = PR.incomplete) →
      parseLoop (pre ++ "-v" :: value :: post) out = parseLoop (pre ++ post) out
  | [], value, post, out, _, hbad => by
    simp only [List.nil_append]
    simp only [parseLoop]
    simp only [if_true, eq_self_iff_true]
    rcases hbad with hb | hb <;> rw [hb]
  | [_], _, _, _, h, _ => by simp at h
  | k :: v :: pre, value, post, out, h, hbad => by
    have h' : pre.length % 2 = 0 := by
      simp only [List.length_cons] at h
      omega
    simp only [List.cons_append]
    simp only [parseLoop]
    by_cases hk : k = "-v"
    · rw [if_pos hk, if_pos hk]
      cases hp : parse_vendor_attribute v.data
      · exact parseLoop_skip_malformed pre value post _ h' hbad
      · exact parseLoop_skip_malformed pre value post _ h' hbad
      · exact parseLoop_skip_malformed pre value post _ h' hbad
      · rfl
    · rw [if_neg hk, if_neg hk]
      exact parseLoop_skip_malformed pre value post _ h' hbad

/-- C8: the option-stream parse is asymmetric.  A stream in which some
option token has no following value token (odd token count) never yields a
table: the whole parse returns `None` (panic-free streams), discarding the
partially built table.  A `-v` value that fails the single-specification
grammar is skipped and scanning continues: the stream parses exactly as if
that `-v value` pair were absent, so surrounding well-formed entries still
produce their table. -/
theorem parse_stream_asymmetry :
    (∀ (toks : List String) (out : Preset), toks.length % 2 = 1 →
       ∀ t, parseLoop toks out ≠ StreamRes.table t) ∧
    (∀ (toks : List String) (out : Preset), toks.length % 2 = 1 →
       (∀ tok ∈ toks, parse_vendor_attribute tok.data ≠ PR.panicked) →
       parseLoop toks out = StreamRes.noTable) ∧
    (∀ (pre : List String) (value : String) (post : List String) (out : Preset),
       pre.length % 2 = 0 →
       (parse_vendor_attribute value.data = PR.perr ∨
        parse_vendor_attribute value.data = PR.incomplete) →
       parseLoop (pre ++ "-v" :: value :: post) out = parseLoop (pre ++ post) out) :=
  ⟨parseLoop_odd_never_table, parseLoop_odd_noTable, parseLoop_skip_malformed⟩

theorem osFileName_utf8 {s r : OsStr} (h : osFileName s = some r) :
    r.utf8 = s.utf8 := by
  unfold osFileName at h
  split at h
  · split at h
    · cases h
    · injection h with h1
      rw [← h1]
  · cases h

/-- Inversion of an accepted block entry: the pushed name is the entry's
directory name and the recorded alias is the file name of its
`device/generic` link target. -/
theorem processEntry_ok_some {e : BlockEntry} {n : OsStr} {al : Option OsStr}
    (h : processEntry e = R.ok (some (n, al))) :
    n = e.name ∧ al = e.generic_link.bind osFileName := by
  unfold processEntry at h
  split at h
  · simp at h
  · split at h
    · simp at h
    · split at h
      · simp at h
      · split at h
        · simp at h
        · split at h
          · simp at h
          · split at h
            · simp at h
            · split at h
              · simp at h
              · split at h
                · simp only [R.ok.injEq, Option.some.injEq, Prod.mk.injEq] at h
                  exact ⟨h.1.symm, h.2.symm⟩
                · simp at h

/-- A block entry whose name, canonical path and generic link are valid
UTF-8 never panics. -/
theorem processEntry_no_panic {e : BlockEntry} (hu : entryUtf8 e = true) :
    processEntry e ≠ R.panicked := by
  intro hcontra
  simp only [entryUtf8, Bool.and_eq_true] at hu
  obtain ⟨⟨hn, hcan⟩, _⟩ := hu
  unfold processEntry at hcontra
  split at hcontra
  · simp at hcontra
  · rename_i path hpath
    rw [hpath] at hcan
    simp only [optUtf8] at hcan
    split at hcontra
    · simp at hcontra
    · split at hcontra
      · rename_i hts
        simp [OsStr.toStr, hcan] at hts
      · split at hcontra
        · simp at hcontra
        · split at hcontra
          · rename_i hts
            simp [OsStr.toStr, hn] at hts
          · split at hcontra
            · simp at hcontra
            · split at hcontra
              · simp at hcontra
              · split at hcontra <;> simp at hcontra

/-- Over an all-UTF-8 block tree, the block scan succeeds and returns only
UTF-8 names. -/
theorem scanBlock_ok_of_utf8 :
    ∀ (bes : List (Option BlockEntry)),
      (∀ ob ∈ bes, optEntryUtf8 ob = true) →
      ∃ ns sk, scanBlock bes = R.ok (ns, sk) ∧
        (∀ x ∈ ns, x.utf8 = true) ∧ (∀ x ∈ sk, x.utf8 = true)
  | [], _ => ⟨[], [], rfl, by simp, by simp⟩
  | none :: rest, hu => by
    obtain ⟨ns, sk, hs, hns, hsk⟩ :=
      scanBlock_ok_of_utf8 rest (fun ob hob => hu ob (by simp [hob]))
    exact ⟨ns, sk, by simpa [scanBlock] using hs, hns, hsk⟩
  | some e :: rest, hu => by
    have hue : entryUtf8 e = true := by
      have := hu (some e) (by simp)
      simpa [optEntryUtf8] using this
    obtain ⟨ns, sk, hs, hns, hsk⟩ :=
      scanBlock_ok_of_utf8 rest (fun ob hob => hu ob (by simp [hob]))
    cases hp : processEntry e with
    | panicked => exact absurd hp (processEntry_no_panic hue)
    | ok r =>
      cases r with
      | none => exact ⟨ns, sk, by simp [scanBlock, hp, hs], hns, hsk⟩
      | some pr =>
        obtain ⟨n, al⟩ := pr
        obtain ⟨hne, hal⟩ := processEntry_ok_some hp
        have hnu : n.utf8 = true := by
          rw [hne]
          simp only [entryUtf8, Bool.and_eq_true] at hue
          exact hue.1.1
        have hmemn : ∀ x ∈ n :: ns, x.utf8 = true := by
          intro x hx
          rcases List.mem_cons.mp hx with hx | hx
          · rw [hx]; exact hnu
          · exact hns x hx
        cases al with
        | none => exact ⟨n :: ns, sk, by simp [scanBlock, hp, hs], hmemn, hsk⟩
        | some g =>
          have hgu : g.utf8 = true := by
            obtain ⟨l0, hl0, hfn⟩ := Option.bind_eq_some.mp hal.symm
            have hl0u : l0.utf8 = true := by
              simp only [entryUtf8, Bool.and_eq_true] at hue
              have h2 := hue.2
              rw [hl0] at h2
              simpa [optUtf8] using h2
            rw [osFileName_utf8 hfn, hl0u]
          refine ⟨n :: ns, g :: sk, by simp [scanBlock, hp, hs], hmemn, ?_⟩
          intro x hx
          rcases List.mem_cons.mp hx with hx | hx
          · rw [hx]; exact hgu
          · exact hsk x hx

/-- The generic alias of an accepted block entry ends up in the reject-set
returned by the block scan. -/
theorem scanBlock_alias_in_skip :
    ∀ (bes : List (Option BlockEntry)) (e : BlockEntry) (n g : OsStr)
      (ns sk : List OsStr),
      some e ∈ bes → processEntry e = R.ok (some (n, some g)) →
      scanBlock bes = R.ok (ns, sk) → g ∈ sk
  | [], _, _, _, _, _, he, _, _ => by simp at he
  | none :: rest, e, n, g, ns, sk, he, hacc, hs => by
    have he' : some e ∈ rest := by simpa using he
    have hs' : scanBlock rest = R.ok (ns, sk) := by simpa [scanBlock] using hs
    exact scanBlock_alias_in_skip rest e n g ns sk he' hacc hs'
  | some e' :: rest, e, n, g, ns, sk, he, hacc, hs => by
    simp only [scanBlock] at hs
    split at hs
    · cases hs
    · rename_i heq
      rcases List.mem_cons.mp he with heqe | he'
      · injection heqe with hee
        rw [hee] at hacc
        rw [hacc] at heq
        cases heq
      · exact scanBlock_alias_in_skip rest e n g ns sk he' hacc hs
    · rename_i n' al' heq
      split at hs
      · cases hs
      · rename_i ns' sk' hrec
        simp only [R.ok.injEq, Prod.mk.injEq] at hs
        rcases List.mem_cons.mp he with heqe | he'
        · injection heqe with hee
          rw [hee] at hacc
          rw [hacc] at heq
          injection heq with heq2
          injection heq2 with heq3
          injection heq3 with heqn heqal
          rw [← hs.2, ← heqal]
          simp
        · have hg' : g ∈ sk' := scanBlock_alias_in_skip rest e n g ns' sk' he' hacc hrec
          rw [← hs.2]
          cases al' with
          | none => exact hg'
          | some gal => exact List.mem_cons_of_mem _ hg'

theorem mem_scanGeneric :
    ∀ (sk : List OsStr) (ges : List (Option OsStr)) (x : OsStr),
      x ∈ scanGeneric sk ges → some x ∈ ges ∧ x ∉ sk
  | _, [], _, hx => by simp [scanGeneric] at hx
  | sk, none :: rest, x, hx => by
    have := mem_scanGeneric sk rest x (by simpa [scanGeneric] using hx)
    exact ⟨by simp [this.1], this.2⟩
  | sk, some nn :: rest, x, hx => by
    simp only [scanGeneric] at hx
    by_cases hmem : nn ∈ sk
    · rw [if_pos hmem] at hx
      have := mem_scanGeneric sk rest x hx
      exact ⟨by simp [this.1], this.2⟩
    · rw [if_neg hmem] at hx
      rcases List.mem_cons.mp hx with heq | hx'
      · subst heq
        exact ⟨by simp, hmem⟩
      · have := mem_scanGeneric sk rest x hx'
        exact ⟨by simp [this.1], this.2⟩

theorem countOccOs_eq_zero :
    ∀ (s : OsStr) (l : List OsStr), s ∉ l → countOccOs s l = 0
  | _, [], _ => rfl
  | s, x :: xs, h => by
    simp only [List.mem_cons, not_or] at h
    simp only [countOccOs]
    rw [if_neg (fun hh => h.1 hh.symm)]
    simpa using countOccOs_eq_zero s xs h.2

theorem countOccOs_append :
    ∀ (s : OsStr) (a b : List OsStr),
      countOccOs s (a ++ b) = countOccOs s a + countOccOs s b
  | _, [], b => by simp [countOccOs]
  | s, x :: xs, b => by
    show (if x = s then 1 else 0) + countOccOs s (xs ++ b) =
      ((if x = s then 1 else 0) + countOccOs s xs) + countOccOs s b
    rw [countOccOs_append s xs b]
    omega

theorem intoDevPaths_ok :
    ∀ (l : List OsStr), (∀ x ∈ l, x.utf8 = true) →
      intoDevPaths l = R.ok (l.map (fun o => "/dev/" ++ o.val))
  | [], _ => rfl
  | x :: xs, h => by
    have hx : x.utf8 = true := h x (by simp)
    have hrec := intoDevPaths_ok xs (fun y hy => h y (by simp [hy]))
    simp [intoDevPaths, OsStr.toStr, hx, hrec]

theorem osStr_eq_of_val {x s : OsStr} (hv : x.val = s.val) (hx : x.utf8 = true)
    (hs : s.utf8 = true) : x = s := by
  cases x; cases s; simp_all

theorem string_append_cancel_left {s a b : String} (h : s ++ a = s ++ b) :
    a = b := by
  have hd : s.data ++ a.data = s.data ++ b.data := by
    rw [← String.data_append, ← String.data_append, h]
  have hab := List.append_cancel_left hd
  cases a
  cases b
  exact congrArg String.mk hab

theorem countOccStr_map_dev :
    ∀ (l : List OsStr) (s : OsStr), s.utf8 = true → (∀ x ∈ l, x.utf8 = true) →
      countOccStr ("/dev/" ++ s.val) (l.map (fun o => "/dev/" ++ o.val)) =
        countOccOs s l
  | [], _, _, _ => rfl
  | x :: xs, s, hs, hl => by
    have hx : x.utf8 = true := hl x (by simp)
    have hrec := countOccStr_map_dev xs s hs (fun y hy => hl y (by simp [hy]))
    simp only [List.map_cons, countOccStr, countOccOs, hrec]
    have hiff : ("/dev/" ++ x.val = "/dev/" ++ s.val) ↔ (x = s) := by
      constructor
      · intro hh
        exact osStr_eq_of_val (string_append_cancel_left hh) hx hs
      · intro hh
        rw [hh]
    rw [if_congr hiff rfl rfl]

/-- C5 counterexample: a snapshot whose class-tree roots are both listable
but where one entry's canonical path is not UTF-8 makes `list_devices`
panic (`to_str().unwrap()`), i.e. terminate abnormally rather than skip the
entry. -/
theorem list_devices_nonutf8_panics :
    badFs.class_block ≠ none ∧ badFs.class_scsi_generic ≠ none ∧
    list_devices badFs = LDRes.panicked := by
  exact ⟨by simp [badFs], by simp [badFs], by decide⟩

/-- C5 (amended): over a snapshot whose names and paths are all valid
UTF-8, `list_devices` returns the `io::Error` outcome exactly when a
class-tree root cannot be listed, never panics, and succeeds whenever both
roots are listable — every per-entry problem (unreadable entry, failed
canonicalization, unreadable or absent uevent file) is skipped. -/
theorem list_devices_failure_semantics (fs : Sysfs)
    (hutf : sysfsUtf8 fs = true) :
    (list_devices fs = LDRes.ioError ↔
      (fs.class_block = none ∨ fs.class_scsi_generic = none)) ∧
    list_devices fs ≠ LDRes.panicked ∧
    (fs.class_block ≠ none → fs.class_scsi_generic ≠ none →
      ∃ l, list_devices fs = LDRes.ok l) := by
  simp only [sysfsUtf8, Bool.and_eq_true] at hutf
  obtain ⟨hub, hug⟩ := hutf
  cases hb : fs.class_block with
  | none => simp [list_devices, hb]
  | some bes =>
    rw [hb] at hub
    simp only [optAll, List.all_eq_true] at hub
    obtain ⟨ns, sk, hscan, hns, hsk⟩ := scanBlock_ok_of_utf8 bes hub
    cases hg : fs.class_scsi_generic with
    | none => simp [list_devices, hb, hscan, hg]
    | some ges =>
      rw [hg] at hug
      simp only [optAll, List.all_eq_true] at hug
      have hgenu : ∀ x ∈ scanGeneric sk ges, x.utf8 = true := by
        intro x hx
        have := hug (some x) (mem_scanGeneric sk ges x hx).1
        simpa [optUtf8] using this
      have hall : ∀ x ∈ ns ++ scanGeneric sk ges, x.utf8 = true := by
        intro x hx
        rcases List.mem_append.mp hx with hx | hx
        · exact hns x hx
        · exact hgenu x hx
      have hido := intoDevPaths_ok (ns ++ scanGeneric sk ges) hall
      have hld : list_devices fs =
          LDRes.ok ((ns ++ scanGeneric sk ges).map (fun o => "/dev/" ++ o.val)) := by
        simp only [list_devices, hb, hscan, hg, hido]
      refine ⟨?_, ?_, fun _ _ => ⟨_, hld⟩⟩
      · rw [hld]
        simp [hb, hg]
      · rw [hld]
        simp

/-- C5 witness: the amended failure semantics at a concrete all-UTF-8
snapshot. -/
theorem list_devices_failure_semantics_witness :
    (list_devices demoFs = LDRes.ioError ↔
      (demoFs.class_block = none ∨ demoFs.class_scsi_generic = none)) ∧
    list_devices demoFs ≠ LDRes.panicked ∧
    (demoFs.class_block ≠ none → demoFs.class_scsi_generic ≠ none →
      ∃ l, list_devices demoFs = LDRes.ok l) :=
  list_devices_failure_semantics demoFs (by decide)

/-- C4: `list_devices` never returns the same physical device twice.  When
an accepted block entry records a generic pass-through alias, the alias
name is placed in the reject-set and excluded from the generic-SCSI pass,
so the device appears in the returned list exactly once — once as its block
node and never as its generic alias. -/
theorem list_devices_dedup
    (fs : Sysfs) (bes : List (Option BlockEntry)) (ges : List (Option OsStr))
    (e : BlockEntry) (n g : OsStr) (ns sk : List OsStr)
    (hb : fs.class_block = some bes)
    (hg : fs.class_scsi_generic = some ges)
    (hutf : sysfsUtf8 fs = true)
    (he : some e ∈ bes)
    (hacc : processEntry e = R.ok (some (n, some g)))
    (hscan : scanBlock bes = R.ok (ns, sk))
    (hn1 : countOccOs n ns = 1)
    (hgns : countOccOs g ns = 0)
    (hnges : some n ∉ ges) :
    g ∈ sk ∧
    countOccOs g (scanGeneric sk ges) = 0 ∧
    ∃ res, list_devices fs = LDRes.ok res ∧
      countOccStr ("/dev/" ++ n.val) res = 1 ∧
      countOccStr ("/dev/" ++ g.val) res = 0 := by
  simp only [sysfsUtf8, Bool.and_eq_true] at hutf
  obtain ⟨hub, hug⟩ := hutf
  rw [hb] at hub
  rw [hg] at hug
  simp only [optAll, List.all_eq_true] at hub hug
  obtain ⟨ns', sk', hscan', hns', hsk'⟩ := scanBlock_ok_of_utf8 bes hub
  rw [hscan] at hscan'
  simp only [R.ok.injEq, Prod.mk.injEq] at hscan'
  obtain ⟨hnseq, hskeq⟩ := hscan'
  subst hnseq
  subst hskeq
  have hgsk : g ∈ sk := scanBlock_alias_in_skip bes e n g ns sk he hacc hscan
  have hgnotgen : g ∉ scanGeneric sk ges := fun hmem =>
    (mem_scanGeneric sk ges g hmem).2 hgsk
  have hnnotgen : n ∉ scanGeneric sk ges := fun hmem =>
    hnges (mem_scanGeneric sk ges n hmem).1
  have hcg : countOccOs g (scanGeneric sk ges) = 0 := countOccOs_eq_zero g _ hgnotgen
  have hcn : countOccOs n (scanGeneric sk ges) = 0 := countOccOs_eq_zero n _ hnnotgen
  have hgenu : ∀ x ∈ scanGeneric sk ges, x.utf8 = true := by
    intro x hx
    have := hug (some x) (mem_scanGeneric sk ges x hx).1
    simpa [optUtf8] using this
  have hall : ∀ x ∈ ns ++ scanGeneric sk ges, x.utf8 = true := by
    intro x hx
    rcases List.mem_append.mp hx with hx | hx
    · exact hns' x hx
    · exact hgenu x hx
  have hnu : n.utf8 = true := by
    obtain ⟨hne, _⟩ := processEntry_ok_some hacc
    have := hub (some e) he
    simp only [optEntryUtf8, entryUtf8, Bool.and_eq_true] at this
    rw [hne]
    exact this.1.1
  have hgu : g.utf8 = true := by
    obtain ⟨_, hal⟩ := processEntry_ok_some hacc
    obtain ⟨l0, hl0, hfn⟩ := Option.bind_eq_some.mp hal.symm
    have hl0u : l0.utf8 = true := by
      have := hub (some e) he
      simp only [optEntryUtf8, entryUtf8, Bool.and_eq_true] at this
      have h2 := this.2
      rw [hl0] at h2
      simpa [optUtf8] using h2
    rw [osFileName_utf8 hfn, hl0u]
  have hido := intoDevPaths_ok (ns ++ scanGeneric sk ges) hall
  have hld : list_devices fs =
      LDRes.ok ((ns ++ scanGeneric sk ges).map (fun o => "/dev/" ++ o.val)) := by
    simp only [list_devices, hb, hscan, hg, hido]
  refine ⟨hgsk, hcg, _, hld, ?_, ?_⟩
  · rw [countOccStr_map_dev _ n hnu hall, countOccOs_append, hn1, hcn]
  · rw [countOccStr_map_dev _ g hgu hall, countOccOs_append, hgns, hcg]

/-- C4 witness: the `sda`/`sg0` pair of `demoFs`, where the device appears
exactly once and its alias never. -/
theorem list_devices_dedup_witness :
    (⟨"sg0", true⟩ : OsStr) ∈ ([⟨"sg0", true⟩] : List OsStr) ∧
    countOccOs ⟨"sg0", true⟩
      (scanGeneric [⟨"sg0", true⟩] [some ⟨"sg0", true⟩, some ⟨"sg7", true⟩]) = 0 ∧
    ∃ res, list_devices demoFs = LDRes.ok res ∧
      countOccStr ("/dev/" ++ (⟨"sda", true⟩ : OsStr).val) res = 1 ∧
      countOccStr ("/dev/" ++ (⟨"sg0", true⟩ : OsStr).val) res = 0 :=
  list_devices_dedup demoFs [some sdaEntry] [some ⟨"sg0", true⟩, some ⟨"sg7", true⟩]
    sdaEntry ⟨"sda", true⟩ ⟨"sg0", true⟩ [⟨"sda", true⟩] [⟨"sg0", true⟩]
    rfl rfl (by decide) (by decide) (by decide) (by decide) (by decide) (by decide)
    (by decide)

/-- C8 witness: the dangling stream `-v` and the malformed value `foo`
inside a stream, at concrete inputs. -/
theorem parse_stream_asymmetry_witness :
    parseLoop ["-v"] [] ≠ StreamRes.table [] ∧
    parseLoop ["-v"] [] = StreamRes.noTable ∧
    parseLoop (([] : List String) ++ "-v" :: "foo" :: ["-v", "1,raw48"]) [] =
      parseLoop (([] : List String) ++ ["-v", "1,raw48"]) [] :=
  ⟨parse_stream_asymmetry.1 ["-v"] [] (by decide) [],
   parse_stream_asymmetry.2.1 ["-v"] [] (by decide) (by decide),
   parse_stream_asymmetry.2.2 [] "foo" ["-v", "1,raw48"] [] (by decide)
     (Or.inl (by decide))⟩

/-- C1: the per-attribute classification of `print_attributes` follows the
exact tie-break of the specification: "failing now" iff current value and
threshold are both known and value ≤ threshold, otherwise "failed in the
past" iff worst and threshold are both known and worst ≤ threshold,
otherwise "ok/unknown"; in particular an unknown threshold always yields
"ok/unknown", and "failing now" wins when both comparisons hold
(value=5, worst=90, threshold=10 → "NOW "). -/
theorem fail_field_correct :
    (∀ v w t, fail_field v w t = fail_field_spec v w t) ∧
    (∀ v w, fail_field v w none = "-   ") ∧
    fail_field (some 5) (some 90) (some 10) = "NOW " ∧
    fail_field (some 50) (some 5) (some 10) = "past" := by
  refine ⟨?_, ?_, by decide, by decide⟩
  · intro v w t
    rcases v with _ | v <;> rcases w with _ | w <;> rcases t with _ | t <;>
      simp [fail_field, fail_field_spec, bothKnownLE] <;>
      split_ifs <;> simp_all
  · intro v w
    rcases v with _ | v <;> rcases w with _ | w <;> rfl

/-- C2: when the health-monitoring capability state is Unsupported or
Disabled, the health and attributes sections issue no command at all to the
executor and instead emit exactly one section-specific notice that
distinguishes Unsupported from Disabled; commands are issued by a section
only when the state is Enabled, and an Unsupported/Disabled state leaves the
identification command as the only command of the whole query flow. -/
theorem smart_gating_correct (st : Ternary)
    (h : st = Ternary.Unsupported ∨ st = Ternary.Disabled) :
    commandsOf (healthSection st) = [] ∧
    commandsOf (attrsSection st) = [] ∧
    (∃ m, healthSection st = [Effect.warnMsg m]) ∧
    (∃ m, attrsSection st = [Effect.warnMsg m]) ∧
    healthSection Ternary.Unsupported ≠ healthSection Ternary.Disabled ∧
    attrsSection Ternary.Unsupported ≠ attrsSection Ternary.Disabled ∧
    healthSection st ≠ attrsSection st ∧
    (∀ st', commandsOf (healthSection st') ≠ [] → st' = Ternary.Enabled) ∧
    (∀ st', commandsOf (attrsSection st') ≠ [] → st' = Ternary.Enabled) ∧
    (∀ pi ph pa : Bool, (pi || ph || pa) = true →
      commandsOf (querySequence pi ph pa st) =
        [Effect.execCmd AtaCommand.Identify (ArgVal.lit 1) (ArgVal.lit 0) (ArgVal.lit 1)]) := by
  have hhealth : ∀ st', commandsOf (healthSection st') ≠ [] → st' = Ternary.Enabled := by
    intro st' hne
    cases st' with
    | Unsupported => exact absurd rfl hne
    | Disabled => exact absurd rfl hne
    | Enabled => rfl
  have hattrs : ∀ st', commandsOf (attrsSection st') ≠ [] → st' = Ternary.Enabled := by
    intro st' hne
    cases st' with
    | Unsupported => exact absurd rfl hne
    | Disabled => exact absurd rfl hne
    | Enabled => rfl
  rcases h with h | h <;> subst h <;>
    exact ⟨rfl, rfl, ⟨_, rfl⟩, ⟨_, rfl⟩, by decide, by decide, by decide,
      hhealth, hattrs, by decide⟩

/-- C2 witness at the Disabled state. -/
theorem smart_gating_correct_witness :
    commandsOf (healthSection Ternary.Disabled) = [] :=
  (smart_gating_correct Ternary.Disabled (Or.inr rfl)).1

/-- C3: the backend selection `match` in `main` keys on
`args.value_of("device")`, which clap resolves to the positional device
*path*, not to the `-d`/`--device` *type* flag (stored under the clap name
`"type"`).  With the declared type `"ata"` and the path `"/dev/sda"` the
code selects the SCSI pass-through backend, and it selects the direct ATA
backend exactly when the path itself is the literal string `"ata"`. -/
theorem backend_selection_bug :
    value_of ⟨some "ata", some "/dev/sda"⟩ "type" = some "ata" ∧
    selectBackend OS.linux ⟨some "ata", some "/dev/sda"⟩ =
      SelectRes.chosen Backend.linux_scsi_sat ∧
    selectBackend OS.linux ⟨some "/dev/sda", some "ata"⟩ =
      SelectRes.chosen Backend.linux_ata := by
  exact ⟨rfl, rfl, rfl⟩

/-- C6: on the specification `256,raw48`, whose leading digit run denotes a
value outside the unsigned 8-bit range, `parse_vendor_attribute` panics
(`parse::<u8>().unwrap()` on an `Err`) instead of returning a parse
failure. -/
theorem parse_vendor_attribute_overflow_panics :
    parse_vendor_attribute ("256,raw48".data) = PR.panicked ∧
    parse_vendor_attribute ("256,raw48".data) ≠ PR.perr := by
  exact ⟨by decide, by decide⟩

/-- C10: on Linux `Device::get_type` always returns `Ok(Type::SCSI)`,
regardless of the device behind the handle. -/
theorem get_type_always_scsi :
    ∀ d : Device, Device.get_type d = Except.ok DevType.SCSI :=
  fun _ => rfl

end HddRs
